import Mathlib

set_option maxHeartbeats 1000000

/-!
Shallow embedding of the license-plate stability/confirmation tracker of
this repository. The embedded code lives in the four files under
`src/optical character recognition/`:

* `plate_capture_easyocr_livestream.py` — module-level state `plates_seen`,
  `confirmed_plates`, `recorded_plates`; the stability-tracking block of
  `detection_loop` (lines 288–311); `exit_watcher` (lines 230–237);
  `publish_event` (lines 77–98). Embedded below in namespace `LS`.
* `plate_capture_easyocr_upload.py` — `LPProcessor` with the same state,
  `detection_loop` (lines 290–316) and `_exit_watcher` (lines 180–190).
  Embedded in namespace `UP`.
* `app_trial_livestream.py` — the earlier variant: `detection_loop`
  (lines 155–169), `exit_watcher` (lines 109–116), and an unguarded
  `publish_event` (lines 56–70). Embedded in namespace `AT`.

Timestamps and confidences (Python floats) are modelled as rationals;
Python dicts as insertion-ordered association lists; Python sets as
duplicate-free lists used only via membership, add and remove. The
arbitrary iteration order of a Python set, which `max(set(texts),
key=texts.count)` depends on, is modelled by an explicit enumeration
function `enum` constrained by `ValidEnum`.
-/

namespace PlateTracker

/-- Timestamps (Python `time.time()` floats) modelled as rationals. -/
abbrev Time := ℚ

/-- The policy thresholds read from each source file's configuration block:
`STABILITY_COUNT`, `EXIT_TIMEOUT` and `DEBUG_SAVE`. -/
structure Config where
  stability : Nat
  exitTimeout : Time
  debugSave : Bool

/-- Association-list lookup, modelling a Python dict read (`d[k]` /
`k in d`): the first entry with the given key. -/
def lookup {α : Type} (k : String) : List (String × α) → Option α
  | [] => none
  | (k₁, v) :: rest => if k₁ = k then some v else lookup k rest

/-- In-place replacement of the first entry with the given key, modelling
mutation of an existing Python dict entry (dict keys are unique, and
updating preserves insertion order). -/
def updateAt {α : Type} (k : String) (f : α → α) : List (String × α) → List (String × α)
  | [] => []
  | (k₁, v) :: rest =>
    if k₁ = k then (k₁, f v) :: rest else (k₁, v) :: updateAt k f rest

/-- The fold performed by Python `max` over a non-empty iterable: the
current best is replaced only on a strictly larger key. -/
def pyFold (key : String → Nat) (x : String) (xs : List String) : String :=
  xs.foldl (fun acc y => if key acc < key y then y else acc) x

/-- Python `max(iterable, key=key)`: the first element attaining the
maximum key in iteration order. -/
def pyMaxBy (key : String → Nat) : List String → Option String
  | [] => none
  | x :: xs => some (pyFold key x xs)

/-- Models `final_text = max(set(texts), key=texts.count)`: `enum texts` is
the iteration order in which Python happens to enumerate `set(texts)`. -/
def finalTextWith (enum : List String → List String) (texts : List String) : String :=
  (pyMaxBy (fun t => texts.count t) (enum texts)).getD ""

/-- An enumeration function faithfully models Python set iteration when it
always yields exactly the distinct elements of its input, in some order. -/
def ValidEnum (enum : List String → List String) : Prop :=
  ∀ l : List String, (enum l).Perm l.dedup

/-- The payload handed to `publish_event` on a confirmation transition:
the event-type tag, the confirmed plate text, the stored confidence and an
image crop. -/
structure Event (Img : Type) where
  tag : String
  plate : String
  confidence : ℚ
  crop : Img
deriving DecidableEq

/-- One action against the shared tracker state: one recognized text
processed by the stability-tracking block of `detection_loop`, or one pass
of the exit watcher. -/
inductive Act (Img : Type) where
  | obs (t : String) (c : ℚ) (n : Time) (cr : Img)
  | sweep (n : Time)

namespace LS

/-- One value of `plates_seen` in `plate_capture_easyocr_livestream.py`
(line 290): `count`, `last_seen`, `conf`, `texts`. -/
structure Info where
  count : Nat
  last_seen : Time
  conf : ℚ
  texts : List String
deriving DecidableEq

/-- The module-level detection state of
`plate_capture_easyocr_livestream.py` (lines 219–221): `plates_seen`,
`confirmed_plates`, `recorded_plates`. -/
structure State where
  plates_seen : List (String × Info)
  confirmed_plates : List String
  recorded_plates : List String
deriving DecidableEq

/-- The initial state: empty dict, empty sets (lines 219–221). -/
def init : State := ⟨[], [], []⟩

/-- The per-plate record after one observation: created with count 1 on
first sight (line 290), otherwise updated in place (lines 292–295): count
incremented, `last_seen` refreshed, `conf` replaced by the running max, and
the looked-up key appended to `texts`. -/
def nextInfo (t : String) (c : ℚ) (n : Time) : Option Info → Info
  | none => ⟨1, n, c, [t]⟩
  | some w => ⟨w.count + 1, n, max w.conf c, w.texts ++ [t]⟩

/-- The `plates_seen` dict after one observation of `t`: a fresh entry is
appended (Python dicts append new keys in insertion order), an existing one
is replaced in place. -/
def obsPlates (st : State) (t : String) (v : Info) : List (String × Info) :=
  match lookup t st.plates_seen with
  | none => st.plates_seen ++ [(t, v)]
  | some _ => updateAt t (fun _ => v) st.plates_seen

/-- The stability-tracking block of `detection_loop`
(`plate_capture_easyocr_livestream.py` lines 288–311) for one recognized
text: update `plates_seen`; then, if the count has reached
`STABILITY_COUNT` and the majority-vote text is not already confirmed, add
it to `confirmed_plates` (and to `recorded_plates` when debug saving), and
return the published entry event carrying the stored confidence and the
current crop. -/
def observe {Img : Type} (enum : List String → List String) (cfg : Config)
    (st : State) (t : String) (c : ℚ) (n : Time) (cr : Img) :
    State × Option (Event Img) :=
  let v := nextInfo t c n (lookup t st.plates_seen)
  let ps := obsPlates st t v
  if cfg.stability ≤ v.count then
    let final := finalTextWith enum v.texts
    if final ∈ st.confirmed_plates then
      (⟨ps, st.confirmed_plates, st.recorded_plates⟩, none)
    else
      (⟨ps, st.confirmed_plates ++ [final],
        if cfg.debugSave ∧ final ∉ st.recorded_plates then
          st.recorded_plates ++ [final]
        else st.recorded_plates⟩,
       some ⟨"entry", final, v.conf, cr⟩)
  else
    (⟨ps, st.confirmed_plates, st.recorded_plates⟩, none)

/-- One pass of `exit_watcher` (`plate_capture_easyocr_livestream.py` lines
230–237): every candidate with `now - last_seen > EXIT_TIMEOUT` is deleted
from `plates_seen`; a kept entry satisfies `now - last_seen ≤ EXIT_TIMEOUT`.
This variant does not touch `confirmed_plates`. -/
def sweep (cfg : Config) (st : State) (n : Time) : State :=
  ⟨st.plates_seen.filter (fun pv => decide (n - pv.2.last_seen ≤ cfg.exitTimeout)),
   st.confirmed_plates, st.recorded_plates⟩

/-- One interleaved action of the producer loop or the exit watcher. -/
def step {Img : Type} (enum : List String → List String) (cfg : Config)
    (st : State) : Act Img → State × Option (Event Img)
  | .obs t c n cr => observe enum cfg st t c n cr
  | .sweep n => (sweep cfg st n, none)

/-- A run over a list of actions, collecting the per-action result of the
confirmation check (`some event` exactly when that action published). -/
def run {Img : Type} (enum : List String → List String) (cfg : Config)
    (st : State) : List (Act Img) → State × List (Option (Event Img))
  | [] => (st, [])
  | a :: rest =>
    let r := step enum cfg st a
    let rr := run enum cfg r.1 rest
    (rr.1, r.2 :: rr.2)

/-- A sequence of observations of one fixed text, as producer actions: the
caller sees the same recognized string on consecutive processed frames,
with varying confidences, timestamps and crops. -/
def obsActs {Img : Type} (t : String) (l : List (ℚ × Time × Img)) : List (Act Img) :=
  l.map (fun o => Act.obs t o.1 o.2.1 o.2.2)

/-- The per-plate record after a further sequence of observations of the
same text, one update step (lines 292–295) per observation. -/
def foldInfo (t : String) (v : Info) (l : List (ℚ × Time)) : Info :=
  l.foldl (fun w o => ⟨w.count + 1, o.2, max w.conf o.1, w.texts ++ [t]⟩) v

/-- The relation between a state and the observation count of one tracked
text: the bucket for `t` is absent when the count is zero and otherwise
records exactly `c` uniform observations, and `t` is confirmed exactly when
the count has reached the stability threshold. -/
def SameInv (cfg : Config) (st : State) (t : String) (c : Nat) : Prop :=
  (if c = 0 then lookup t st.plates_seen = none
   else ∃ v : Info, lookup t st.plates_seen = some v ∧ v.count = c ∧
     v.texts = List.replicate c t) ∧
  (t ∈ st.confirmed_plates ↔ cfg.stability ≤ c)

end LS

namespace UP

/-- One value of `self.plates_seen` in `plate_capture_easyocr_upload.py`
(line 292): `count`, `last_seen`, `conf`, `texts`, `crop`. -/
structure Info (Img : Type) where
  count : Nat
  last_seen : Time
  conf : ℚ
  texts : List String
  crop : Img
deriving DecidableEq

/-- The `LPProcessor` detection state (`plate_capture_easyocr_upload.py`
lines 72–74): `plates_seen`, `confirmed_plates`, `recorded_plates` (the
latter is initialized but never used by this variant). -/
structure State (Img : Type) where
  plates_seen : List (String × Info Img)
  confirmed_plates : List String
  recorded_plates : List String
deriving DecidableEq

/-- The initial `LPProcessor` state. -/
def init {Img : Type} : State Img := ⟨[], [], []⟩

/-- The per-plate record after one observation (lines 292–298): as in the
livestream variant, plus the most recent crop replacing the stored one. -/
def nextInfo {Img : Type} (t : String) (c : ℚ) (n : Time) (cr : Img) :
    Option (Info Img) → Info Img
  | none => ⟨1, n, c, [t], cr⟩
  | some w => ⟨w.count + 1, n, max w.conf c, w.texts ++ [t], cr⟩

/-- The `plates_seen` dict after one observation of `t`, as in the
livestream variant. -/
def obsPlates {Img : Type} (st : State Img) (t : String) (v : Info Img) :
    List (String × Info Img) :=
  match lookup t st.plates_seen with
  | none => st.plates_seen ++ [(t, v)]
  | some _ => updateAt t (fun _ => v) st.plates_seen

/-- The stability-tracking block of `LPProcessor.detection_loop`
(`plate_capture_easyocr_upload.py` lines 290–316) for one recognized text;
the published event carries the stored confidence and stored crop. -/
def observe {Img : Type} (enum : List String → List String) (cfg : Config)
    (st : State Img) (t : String) (c : ℚ) (n : Time) (cr : Img) :
    State Img × Option (Event Img) :=
  let v := nextInfo t c n cr (lookup t st.plates_seen)
  let ps := obsPlates st t v
  if cfg.stability ≤ v.count then
    let final := finalTextWith enum v.texts
    if final ∈ st.confirmed_plates then
      (⟨ps, st.confirmed_plates, st.recorded_plates⟩, none)
    else
      (⟨ps, st.confirmed_plates ++ [final], st.recorded_plates⟩,
       some ⟨"entry", final, v.conf, v.crop⟩)
  else
    (⟨ps, st.confirmed_plates, st.recorded_plates⟩, none)

/-- One pass of `LPProcessor._exit_watcher`
(`plate_capture_easyocr_upload.py` lines 180–190): the expired keys are
collected, each is removed from `confirmed_plates` when present, and each
is deleted from `plates_seen`. -/
def sweep {Img : Type} (cfg : Config) (st : State Img) (n : Time) : State Img :=
  let expired :=
    (st.plates_seen.filter (fun pv => decide (cfg.exitTimeout < n - pv.2.last_seen))).map
      Prod.fst
  ⟨st.plates_seen.filter (fun pv => decide (pv.1 ∉ expired)),
   st.confirmed_plates.filter (fun p => decide (p ∉ expired)),
   st.recorded_plates⟩

/-- One interleaved action of the producer loop or the exit watcher. -/
def step {Img : Type} (enum : List String → List String) (cfg : Config)
    (st : State Img) : Act Img → State Img × Option (Event Img)
  | .obs t c n cr => observe enum cfg st t c n cr
  | .sweep n => (sweep cfg st n, none)

/-- A run over a list of actions, collecting per-action results. -/
def run {Img : Type} (enum : List String → List String) (cfg : Config)
    (st : State Img) : List (Act Img) → State Img × List (Option (Event Img))
  | [] => (st, [])
  | a :: rest =>
    let r := step enum cfg st a
    let rr := run enum cfg r.1 rest
    (rr.1, r.2 :: rr.2)

end UP

namespace AT

/-- The module-level detection state of `app_trial_livestream.py`
(lines 104–105): `plates_seen` and `confirmed_plates` (no recorded set in
this variant). Per-plate records have the same shape as `LS.Info`. -/
structure State where
  plates_seen : List (String × LS.Info)
  confirmed_plates : List String
deriving DecidableEq

/-- The initial state. -/
def init : State := ⟨[], []⟩

/-- The stability-tracking block of `detection_loop`
(`app_trial_livestream.py` lines 155–169): the confirmation guard checks
`count ≥ STABILITY_COUNT and plate_text not in confirmed_plates` (the
looked-up key, not the majority-vote text), then adds the majority-vote
text and publishes. -/
def observe {Img : Type} (enum : List String → List String) (cfg : Config)
    (st : State) (t : String) (c : ℚ) (n : Time) (cr : Img) :
    State × Option (Event Img) :=
  let v := LS.nextInfo t c n (lookup t st.plates_seen)
  let ps :=
    match lookup t st.plates_seen with
    | none => st.plates_seen ++ [(t, v)]
    | some _ => updateAt t (fun _ => v) st.plates_seen
  if cfg.stability ≤ v.count ∧ t ∉ st.confirmed_plates then
    let final := finalTextWith enum v.texts
    (⟨ps, st.confirmed_plates ++ [final]⟩, some ⟨"entry", final, v.conf, cr⟩)
  else
    (⟨ps, st.confirmed_plates⟩, none)

/-- The observe step of `app_trial_livestream.py` with result forwarding
(line 169): the tracker update and the confirmed-set insertion run first,
then `publish_event` is invoked on the returned event, if any. The
transport `emitter` is called with no try/except around it
(lines 56–70), so its failure propagates out of the step. Returns the final
state, the list of emitter invocations made, and the exception outcome. -/
def observeEmit {Img : Type} (emitter : Event Img → Except String Unit)
    (enum : List String → List String) (cfg : Config)
    (st : State) (t : String) (c : ℚ) (n : Time) (cr : Img) :
    State × List (Event Img) × Except String Unit :=
  let r := observe enum cfg st t c n cr
  match r.2 with
  | none => (r.1, [], .ok ())
  | some e => (r.1, [e], emitter e)

end AT

namespace LS

/-- The per-bucket invariant of every reachable state: a bucket's texts
list holds exactly `count` repetitions of its own key — `detection_loop`
only ever appends the looked-up key to its own bucket — and the count is
positive. -/
def InfoOK (p : String) (v : Info) : Prop :=
  1 ≤ v.count ∧ v.texts = List.replicate v.count p

/-- All buckets of the state satisfy the per-bucket invariant. -/
def TextsOK (st : State) : Prop :=
  ∀ pv ∈ st.plates_seen, InfoOK pv.1 pv.2

instance (p : String) (v : Info) : Decidable (InfoOK p v) := by
  unfold InfoOK; infer_instance

instance (st : State) : Decidable (TextsOK st) := by
  unfold TextsOK; infer_instance

/-- `publish_event` of `plate_capture_easyocr_livestream.py` (lines 77–98):
the transport call (`client.publish`, modelled by `emitter`) is wrapped in
try/except, so a failing transport is caught and logged and the function
returns normally. -/
def publish_event {Img : Type} (emitter : Event Img → Except String Unit)
    (e : Event Img) : Except String Unit :=
  match emitter e with
  | .ok _ => .ok ()
  | .error _ => .ok ()

/-- The observe step together with result forwarding, as the confirmation
branch of `detection_loop` does it (line 311): the tracker update and the
confirmed-set insertion run first, then `publish_event` is invoked on the
returned event, if any. Returns the final state, the list of emitter
invocations made, and the exception outcome of the whole step. -/
def observeEmit {Img : Type} (emitter : Event Img → Except String Unit)
    (enum : List String → List String) (cfg : Config)
    (st : State) (t : String) (c : ℚ) (n : Time) (cr : Img) :
    State × List (Event Img) × Except String Unit :=
  let r := observe enum cfg st t c n cr
  match r.2 with
  | none => (r.1, [], .ok ())
  | some e => (r.1, [e], publish_event emitter e)

end LS

/-- Atomic steps of the producer and watcher loops, for stating the lock
discipline: acquiring or releasing the shared lock, an in-memory state
update, or a call that leaves the process (file save, MQTT publish). -/
inductive Op where
  | acquireLock
  | releaseLock
  | memUpdate
  | externalCall (what : String)
deriving DecidableEq

/-- Folds over a trace tracking whether the lock is held, and reports
whether some external call occurs while it is. -/
def extLockedAux : Bool → List Op → Bool
  | _, [] => false
  | _, Op.acquireLock :: rest => extLockedAux true rest
  | _, Op.releaseLock :: rest => extLockedAux false rest
  | held, Op.memUpdate :: rest => extLockedAux held rest
  | held, Op.externalCall _ :: rest => held || extLockedAux held rest

/-- Whether an external call in the trace happens under the lock. -/
def externalWhileLocked (ops : List Op) : Bool := extLockedAux false ops

/-- Keys of an association list are pairwise distinct, as in a Python dict. -/
def KeysNodup {α : Type} (l : List (String × α)) : Prop :=
  (l.map Prod.fst).Nodup

instance {α : Type} (l : List (String × α)) : Decidable (KeysNodup l) := by
  unfold KeysNodup
  infer_instance

namespace LS

/-- The trace of atomic steps performed by the `with lock:` block of
`detection_loop` (`plate_capture_easyocr_livestream.py` lines 288–311) for
one recognized text: the `plates_seen` update always runs under the lock;
on a confirmation transition the confirmed-set insertion, the debug-image
save with its `recorded_plates` update (lines 304–309), and `publish_event`
(line 311) also run before the lock is released. -/
def observeOps (enum : List String → List String) (cfg : Config)
    (st : State) (t : String) (c : ℚ) (n : Time) : List Op :=
  let r := observe enum cfg st t c n ()
  Op.acquireLock :: Op.memUpdate ::
    ((match r.2 with
      | none => []
      | some e =>
        Op.memUpdate ::
          ((if cfg.debugSave ∧ e.plate ∉ st.recorded_plates then
              [Op.externalCall "save_debug_images", Op.memUpdate]
            else []) ++
           [Op.externalCall "publish_event"])) ++
     [Op.releaseLock])

/-- The trace of one `exit_watcher` pass (lines 232–236): the scan and the
deletions run under the lock; nothing in the body leaves the process. -/
def sweepOps : List Op := [Op.acquireLock, Op.memUpdate, Op.releaseLock]

/-- An enumeration that iterates a set in first-occurrence order, one
possible behavior of a Python set. -/
def enumDedup : List String → List String := fun l => l.dedup

/-- An enumeration that iterates a set in reversed first-occurrence order,
another possible behavior of a Python set. -/
def enumRev : List String → List String := fun l => l.dedup.reverse

end LS

end PlateTracker

namespace PlateTracker

theorem enumDedup_valid : ValidEnum LS.enumDedup := fun _ => List.Perm.refl _

theorem enumRev_valid : ValidEnum LS.enumRev := fun l => (l.dedup).reverse_perm

end PlateTracker

namespace PlateTracker

theorem lookup_eq_none_iff {α : Type} (k : String) (l : List (String × α)) :
    lookup k l = none ↔ k ∉ l.map Prod.fst := by
  induction l with
  | nil => simp [lookup]
  | cons hd tl ih =>
    obtain ⟨k₁, v⟩ := hd
    by_cases h : k₁ = k
    · subst h; simp [lookup]
    · simp [lookup, h, ih, Ne.symm h]

theorem lookup_append_self {α : Type} (k : String) (l : List (String × α)) (v : α)
    (h : lookup k l = none) : lookup k (l ++ [(k, v)]) = some v := by
  induction l with
  | nil => simp [lookup]
  | cons hd tl ih =>
    obtain ⟨k₁, w⟩ := hd
    by_cases hk : k₁ = k
    · simp [lookup, hk] at h
    · simp [lookup, hk] at h ⊢
      exact ih h

theorem lookup_append_ne {α : Type} (k s : String) (l : List (String × α)) (v : α)
    (h : s ≠ k) : lookup s (l ++ [(k, v)]) = lookup s l := by
  induction l with
  | nil => simp [lookup, Ne.symm h]
  | cons hd tl ih =>
    obtain ⟨k₁, w⟩ := hd
    by_cases hk : k₁ = s
    · simp [lookup, hk]
    · simp [lookup, hk, ih]

theorem lookup_updateAt_self {α : Type} (k : String) (f : α → α)
    (l : List (String × α)) :
    lookup k (updateAt k f l) = (lookup k l).map f := by
  induction l with
  | nil => simp [lookup, updateAt]
  | cons hd tl ih =>
    obtain ⟨k₁, v⟩ := hd
    by_cases hk : k₁ = k
    · simp [lookup, updateAt, hk]
    · simp [lookup, updateAt, hk, ih]

theorem lookup_updateAt_ne {α : Type} (k s : String) (f : α → α)
    (l : List (String × α)) (h : s ≠ k) :
    lookup s (updateAt k f l) = lookup s l := by
  induction l with
  | nil => simp [updateAt]
  | cons hd tl ih =>
    obtain ⟨k₁, v⟩ := hd
    by_cases hk : k₁ = k
    · subst hk
      simp [lookup, updateAt, Ne.symm h]
    · by_cases hs : k₁ = s
      · simp [lookup, updateAt, hk, hs, h]
      · simp [lookup, updateAt, hk, hs, ih]

theorem lookup_mem {α : Type} {k : String} {l : List (String × α)} {v : α}
    (h : lookup k l = some v) : (k, v) ∈ l := by
  induction l with
  | nil => simp [lookup] at h
  | cons hd tl ih =>
    obtain ⟨k₁, w⟩ := hd
    by_cases hk : k₁ = k
    · subst hk; simp [lookup] at h; simp [h]
    · simp [lookup, hk] at h
      exact List.mem_cons_of_mem _ (ih h)

theorem mem_updateAt {α : Type} {k : String} {f : α → α} {l : List (String × α)}
    {x : String × α} (hx : x ∈ updateAt k f l) :
    x ∈ l ∨ ∃ v, (k, v) ∈ l ∧ x = (k, f v) := by
  induction l with
  | nil => simp [updateAt] at hx
  | cons hd tl ih =>
    obtain ⟨k₁, v⟩ := hd
    by_cases hk : k₁ = k
    · subst hk
      simp [updateAt] at hx
      rcases hx with hx | hx
      · exact Or.inr ⟨v, by simp, hx⟩
      · exact Or.inl (List.mem_cons_of_mem _ hx)
    · simp [updateAt, hk] at hx
      rcases hx with hx | hx
      · exact Or.inl (by simp [hx])
      · rcases ih hx with h | ⟨w, hw, hxw⟩
        · exact Or.inl (List.mem_cons_of_mem _ h)
        · exact Or.inr ⟨w, List.mem_cons_of_mem _ hw, hxw⟩

theorem keys_updateAt {α : Type} (k : String) (f : α → α) (l : List (String × α)) :
    (updateAt k f l).map Prod.fst = l.map Prod.fst := by
  induction l with
  | nil => simp [updateAt]
  | cons hd tl ih =>
    obtain ⟨k₁, v⟩ := hd
    by_cases hk : k₁ = k <;> simp [updateAt, hk, ih]

theorem keysNodup_append {α : Type} {l : List (String × α)} {k : String} {v : α}
    (hnd : KeysNodup l) (h : lookup k l = none) : KeysNodup (l ++ [(k, v)]) := by
  have hk : k ∉ l.map Prod.fst := (lookup_eq_none_iff k l).mp h
  unfold KeysNodup at *
  rw [List.map_append]
  simp only [List.map_cons, List.map_nil]
  rw [List.nodup_append]
  refine ⟨hnd, List.nodup_singleton _, ?_⟩
  intro a ha hb
  simp only [List.mem_singleton] at hb
  subst hb
  exact hk ha

theorem keysNodup_updateAt {α : Type} {l : List (String × α)} (k : String)
    (f : α → α) (hnd : KeysNodup l) : KeysNodup (updateAt k f l) := by
  unfold KeysNodup at *
  rw [keys_updateAt]
  exact hnd

theorem keysNodup_filter {α : Type} {l : List (String × α)} (p : String × α → Bool)
    (hnd : KeysNodup l) : KeysNodup (l.filter p) := by
  unfold KeysNodup at *
  exact List.Nodup.sublist (List.Sublist.map _ (List.filter_sublist l)) hnd

theorem lookup_filter_none {α : Type} {k : String} {l : List (String × α)}
    (p : String × α → Bool) (h : lookup k l = none) :
    lookup k (l.filter p) = none := by
  induction l with
  | nil => simp [lookup]
  | cons hd tl ih =>
    obtain ⟨k₁, v⟩ := hd
    by_cases hk : k₁ = k
    · simp [lookup, hk] at h
    · simp [lookup, hk] at h
      by_cases hp : p (k₁, v) <;> simp [List.filter, hp, lookup, hk, ih h]

theorem lookup_filter_some {α : Type} {k : String} {l : List (String × α)} {v : α}
    (p : String × α → Bool) (hnd : KeysNodup l) (h : lookup k l = some v) :
    lookup k (l.filter p) = if p (k, v) then some v else none := by
  induction l with
  | nil => simp [lookup] at h
  | cons hd tl ih =>
    obtain ⟨k₁, w⟩ := hd
    have hnd₂ : KeysNodup tl := by
      unfold KeysNodup at hnd ⊢
      simp at hnd
      exact hnd.2
    by_cases hk : k₁ = k
    · subst hk
      have hwv : w = v := by simpa [lookup] using h
      subst hwv
      have hnone : lookup k₁ tl = none := by
        rw [lookup_eq_none_iff]
        unfold KeysNodup at hnd
        simp only [List.map_cons, List.nodup_cons] at hnd
        exact hnd.1
      by_cases hp : p (k₁, w)
      · simp [List.filter_cons, hp, lookup]
      · simp [List.filter_cons, hp, lookup, lookup_filter_none p hnone]
    · simp only [lookup, hk, if_false] at h
      by_cases hp : p (k₁, w) <;>
        simp [List.filter_cons, hp, lookup, hk, ih hnd₂ h]

end PlateTracker

namespace PlateTracker

theorem pyFold_mem (key : String → Nat) (x : String) (xs : List String) :
    pyFold key x xs = x ∨ pyFold key x xs ∈ xs := by
  induction xs generalizing x with
  | nil => exact Or.inl rfl
  | cons y ys ih =>
    simp only [pyFold, List.foldl_cons]
    by_cases h : key x < key y
    · simp only [h, if_true]
      rcases ih y with h1 | h1
      · exact Or.inr (by simp [pyFold] at h1 ⊢; simp [h1])
      · exact Or.inr (List.mem_cons_of_mem _ (by simpa [pyFold] using h1))
    · simp only [h, if_false]
      rcases ih x with h1 | h1
      · exact Or.inl (by simpa [pyFold] using h1)
      · exact Or.inr (List.mem_cons_of_mem _ (by simpa [pyFold] using h1))

theorem pyFold_ge_init (key : String → Nat) (x : String) (xs : List String) :
    key x ≤ key (pyFold key x xs) := by
  induction xs generalizing x with
  | nil => exact le_refl _
  | cons y ys ih =>
    simp only [pyFold, List.foldl_cons]
    by_cases h : key x < key y
    · simp only [h, if_true]
      exact le_trans (le_of_lt h) (by simpa [pyFold] using ih y)
    · simp only [h, if_false]
      simpa [pyFold] using ih x

theorem pyFold_ge_mem (key : String → Nat) (x : String) (xs : List String) :
    ∀ y ∈ xs, key y ≤ key (pyFold key x xs) := by
  induction xs generalizing x with
  | nil => intro y hy; simp at hy
  | cons z zs ih =>
    intro y hy
    simp only [pyFold, List.foldl_cons]
    rcases List.mem_cons.mp hy with hz | hz
    · subst hz
      by_cases h : key x < key y
      · simp only [h, if_true]
        simpa [pyFold] using pyFold_ge_init key y zs
      · simp only [h, if_false]
        exact le_trans (not_lt.mp h) (by simpa [pyFold] using pyFold_ge_init key x zs)
    · by_cases h : key x < key z
      · simp only [h, if_true]
        simpa [pyFold] using ih z y hz
      · simp only [h, if_false]
        simpa [pyFold] using ih x y hz

theorem finalTextWith_replicate {enum : List String → List String}
    (he : ValidEnum enum) {k : Nat} (hk : k ≠ 0) (t : String) :
    finalTextWith enum (List.replicate k t) = t := by
  have h1 : (enum (List.replicate k t)).Perm [t] := by
    have h := he (List.replicate k t)
    rwa [List.replicate_dedup hk] at h
  have h2 : enum (List.replicate k t) = [t] := List.perm_singleton.mp h1
  simp [finalTextWith, h2, pyMaxBy, pyFold]

theorem finalTextWith_spec {enum : List String → List String}
    (he : ValidEnum enum) (texts : List String) (hne : texts ≠ []) :
    finalTextWith enum texts ∈ texts ∧
      ∀ s ∈ texts, texts.count s ≤ texts.count (finalTextWith enum texts) := by
  have hperm := he texts
  have hd : texts.dedup ≠ [] := fun h => hne ((List.dedup_eq_nil texts).mp h)
  have henum : enum texts ≠ [] := by
    intro h
    rw [h] at hperm
    exact hd (hperm.symm.eq_nil)
  obtain ⟨x, xs, hx⟩ := List.exists_cons_of_ne_nil henum
  have hft : finalTextWith enum texts = pyFold (fun t => texts.count t) x xs := by
    simp [finalTextWith, hx, pyMaxBy]
  have hmem_enum : finalTextWith enum texts ∈ enum texts := by
    rw [hx, hft]
    rcases pyFold_mem (fun t => texts.count t) x xs with h | h
    · simp [h]
    · exact List.mem_cons_of_mem _ h
  constructor
  · have : finalTextWith enum texts ∈ texts.dedup := hperm.mem_iff.mp hmem_enum
    exact List.mem_dedup.mp this
  · intro s hs
    have hs₂ : s ∈ enum texts :=
      hperm.mem_iff.mpr (List.mem_dedup.mpr hs)
    rw [hx] at hs₂
    rw [hft]
    rcases List.mem_cons.mp hs₂ with h | h
    · subst h
      exact pyFold_ge_init (fun t => texts.count t) s xs
    · exact pyFold_ge_mem (fun t => texts.count t) x xs s h

theorem perm_pair_eq {a b : String} {l : List String} (h : l.Perm [a, b]) :
    l = [a, b] ∨ l = [b, a] := by
  have hlen : l.length = 2 := by simpa using h.length_eq
  match l, hlen with
  | [x, y], _ =>
    have hx : x ∈ [a, b] := h.mem_iff.mp (by simp)
    rcases List.mem_cons.mp hx with hxa | hxb
    · subst hxa
      have h₂ : [y].Perm [b] := (List.perm_cons x).mp h
      left
      rw [List.perm_singleton.mp h₂]
    · have hxb' : x = b := by simpa using hxb
      subst hxb'
      have hswap : ([a, x] : List String).Perm [x, a] := List.Perm.swap x a []
      have h₂ : [y].Perm [a] := (List.perm_cons x).mp (h.trans hswap)
      right
      rw [List.perm_singleton.mp h₂]

end PlateTracker

namespace PlateTracker.LS

theorem lookup_obsPlates_self (st : State) (t : String) (v : Info) :
    lookup t (obsPlates st t v) = some v := by
  unfold obsPlates
  cases h : lookup t st.plates_seen with
  | none => exact lookup_append_self t _ v h
  | some w => rw [lookup_updateAt_self, h]; rfl

theorem lookup_obsPlates_ne (st : State) (t s : String) (v : Info) (h : s ≠ t) :
    lookup s (obsPlates st t v) = lookup s st.plates_seen := by
  unfold obsPlates
  cases hl : lookup t st.plates_seen with
  | none => exact lookup_append_ne t s _ v h
  | some w => exact lookup_updateAt_ne t s _ _ h

theorem keysNodup_obsPlates {st : State} (t : String) (v : Info)
    (hnd : KeysNodup st.plates_seen) : KeysNodup (obsPlates st t v) := by
  unfold obsPlates
  cases h : lookup t st.plates_seen with
  | none => exact keysNodup_append hnd h
  | some w => exact keysNodup_updateAt t _ hnd

theorem observe_fst {Img : Type} (enum : List String → List String)
    (cfg : Config) (st : State) (t : String) (c : ℚ) (n : Time) (cr : Img) :
    (observe enum cfg st t c n cr).1.plates_seen =
      obsPlates st t (nextInfo t c n (lookup t st.plates_seen)) := by
  unfold observe
  dsimp only
  split
  · split <;> rfl
  · rfl

theorem observe_low {Img : Type} (enum : List String → List String)
    (cfg : Config) (st : State) (t : String) (c : ℚ) (n : Time) (cr : Img)
    (h : (nextInfo t c n (lookup t st.plates_seen)).count < cfg.stability) :
    observe enum cfg st t c n cr =
      (⟨obsPlates st t (nextInfo t c n (lookup t st.plates_seen)),
        st.confirmed_plates, st.recorded_plates⟩, none) := by
  unfold observe
  simp only [if_neg (not_le.mpr h)]

theorem observe_already {Img : Type} (enum : List String → List String)
    (cfg : Config) (st : State) (t : String) (c : ℚ) (n : Time) (cr : Img)
    (h : cfg.stability ≤ (nextInfo t c n (lookup t st.plates_seen)).count)
    (h₂ : finalTextWith enum (nextInfo t c n (lookup t st.plates_seen)).texts ∈
      st.confirmed_plates) :
    observe enum cfg st t c n cr =
      (⟨obsPlates st t (nextInfo t c n (lookup t st.plates_seen)),
        st.confirmed_plates, st.recorded_plates⟩, none) := by
  unfold observe
  simp only [if_pos h, if_pos h₂]

theorem observe_confirm {Img : Type} (enum : List String → List String)
    (cfg : Config) (st : State) (t : String) (c : ℚ) (n : Time) (cr : Img)
    (h : cfg.stability ≤ (nextInfo t c n (lookup t st.plates_seen)).count)
    (h₂ : finalTextWith enum (nextInfo t c n (lookup t st.plates_seen)).texts ∉
      st.confirmed_plates) :
    observe enum cfg st t c n cr =
      (⟨obsPlates st t (nextInfo t c n (lookup t st.plates_seen)),
        st.confirmed_plates ++
          [finalTextWith enum (nextInfo t c n (lookup t st.plates_seen)).texts],
        if cfg.debugSave ∧
            finalTextWith enum (nextInfo t c n (lookup t st.plates_seen)).texts ∉
              st.recorded_plates then
          st.recorded_plates ++
            [finalTextWith enum (nextInfo t c n (lookup t st.plates_seen)).texts]
        else st.recorded_plates⟩,
       some ⟨"entry",
         finalTextWith enum (nextInfo t c n (lookup t st.plates_seen)).texts,
         (nextInfo t c n (lookup t st.plates_seen)).conf, cr⟩) := by
  unfold observe
  simp only [if_pos h, if_neg h₂]

theorem nextInfo_infoOK {t : String} {c : ℚ} {n : Time} {o : Option Info}
    (h : ∀ w, o = some w → InfoOK t w) : InfoOK t (nextInfo t c n o) := by
  cases o with
  | none => exact ⟨le_refl 1, rfl⟩
  | some w =>
    obtain ⟨hc, ht⟩ := h w rfl
    constructor
    · exact le_trans hc (Nat.le_succ _)
    · show w.texts ++ [t] = List.replicate (w.count + 1) t
      rw [ht, List.replicate_succ']

theorem textsOK_observe {Img : Type} {enum : List String → List String}
    {cfg : Config} {st : State} (t : String) (c : ℚ) (n : Time) (cr : Img)
    (hok : TextsOK st) : TextsOK (observe enum cfg st t c n cr).1 := by
  intro pv hpv
  rw [observe_fst] at hpv
  have hv : InfoOK t (nextInfo t c n (lookup t st.plates_seen)) :=
    nextInfo_infoOK (fun w hw => hok (t, w) (lookup_mem hw))
  unfold obsPlates at hpv
  cases h : lookup t st.plates_seen with
  | none =>
    rw [h] at hpv hv
    rcases List.mem_append.mp hpv with hmem | hmem
    · exact hok pv hmem
    · simp at hmem
      rw [hmem]
      exact hv
  | some w =>
    rw [h] at hpv hv
    rcases mem_updateAt hpv with hmem | ⟨u, _, hx⟩
    · exact hok pv hmem
    · rw [hx]
      exact hv

theorem textsOK_sweep {cfg : Config} {st : State} (n : Time)
    (hok : TextsOK st) : TextsOK (sweep cfg st n) := by
  intro pv hpv
  exact hok pv (List.mem_filter.mp hpv).1

theorem keysNodup_observe {Img : Type} {enum : List String → List String}
    {cfg : Config} {st : State} (t : String) (c : ℚ) (n : Time) (cr : Img)
    (hnd : KeysNodup st.plates_seen) :
    KeysNodup (observe enum cfg st t c n cr).1.plates_seen := by
  rw [observe_fst]
  exact keysNodup_obsPlates t _ hnd

theorem keysNodup_sweep {cfg : Config} {st : State} (n : Time)
    (hnd : KeysNodup st.plates_seen) : KeysNodup (sweep cfg st n).plates_seen :=
  keysNodup_filter _ hnd

theorem observe_lookup_self {Img : Type} (enum : List String → List String)
    (cfg : Config) (st : State) (t : String) (c : ℚ) (n : Time) (cr : Img) :
    lookup t (observe enum cfg st t c n cr).1.plates_seen =
      some (nextInfo t c n (lookup t st.plates_seen)) := by
  rw [observe_fst]
  exact lookup_obsPlates_self st t _

theorem observe_lookup_ne {Img : Type} (enum : List String → List String)
    (cfg : Config) (st : State) (t s : String) (c : ℚ) (n : Time) (cr : Img)
    (h : s ≠ t) :
    lookup s (observe enum cfg st t c n cr).1.plates_seen =
      lookup s st.plates_seen := by
  rw [observe_fst]
  exact lookup_obsPlates_ne st t s _ h

theorem sweep_lookup {cfg : Config} {st : State} (n : Time) {p : String}
    {v : Info} (hnd : KeysNodup st.plates_seen)
    (hv : lookup p st.plates_seen = some v) :
    lookup p (sweep cfg st n).plates_seen =
      if n - v.last_seen ≤ cfg.exitTimeout then some v else none := by
  unfold sweep
  rw [lookup_filter_some _ hnd hv]
  by_cases h : n - v.last_seen ≤ cfg.exitTimeout <;> simp [h]

end PlateTracker.LS

namespace PlateTracker.LS

theorem step_same {Img : Type} {enum : List String → List String} {cfg : Config}
    {st : State} {t : String} {c : Nat}
    (he : ValidEnum enum) (hS : 1 ≤ cfg.stability)
    (h : SameInv cfg st t c) (cq : ℚ) (n : Time) (cr : Img) :
    SameInv cfg (observe enum cfg st t cq n cr).1 t (c + 1) ∧
      ((observe enum cfg st t cq n cr).2.isSome ↔ c + 1 = cfg.stability) := by
  obtain ⟨hb, hconf⟩ := h
  have hnext : (nextInfo t cq n (lookup t st.plates_seen)).count = c + 1 ∧
      (nextInfo t cq n (lookup t st.plates_seen)).texts = List.replicate (c + 1) t := by
    by_cases hc : c = 0
    · subst hc
      rw [if_pos rfl] at hb
      rw [hb]
      exact ⟨rfl, rfl⟩
    · rw [if_neg hc] at hb
      obtain ⟨v, hv, hcnt, htx⟩ := hb
      rw [hv]
      refine ⟨by simp [nextInfo, hcnt], ?_⟩
      show v.texts ++ [t] = List.replicate (c + 1) t
      rw [htx, List.replicate_succ']
  have hfinal : finalTextWith enum (nextInfo t cq n (lookup t st.plates_seen)).texts = t := by
    rw [hnext.2]
    exact finalTextWith_replicate he (Nat.succ_ne_zero c) t
  have hlook : lookup t (observe enum cfg st t cq n cr).1.plates_seen =
      some (nextInfo t cq n (lookup t st.plates_seen)) :=
    observe_lookup_self enum cfg st t cq n cr
  have hbucket : if c + 1 = 0 then
      lookup t (observe enum cfg st t cq n cr).1.plates_seen = none
    else ∃ v : Info, lookup t (observe enum cfg st t cq n cr).1.plates_seen = some v ∧
      v.count = c + 1 ∧ v.texts = List.replicate (c + 1) t := by
    rw [if_neg (Nat.succ_ne_zero c)]
    exact ⟨_, hlook, hnext.1, hnext.2⟩
  by_cases hS₂ : cfg.stability ≤ c + 1
  · by_cases hmem : t ∈ st.confirmed_plates
    · have hcle : cfg.stability ≤ c := hconf.mp hmem
      have hr := observe_already enum cfg st t cq n cr
        (by rw [hnext.1]; exact hS₂) (by rw [hfinal]; exact hmem)
      refine ⟨⟨hbucket, ?_⟩, ?_⟩
      · rw [hr]
        exact ⟨fun _ => hS₂, fun _ => hmem⟩
      · rw [hr]
        simp only [Option.isSome_none, Bool.false_eq_true, false_iff]
        omega
    · have hcgt : ¬ cfg.stability ≤ c := fun hh => hmem (hconf.mpr hh)
      have hr := observe_confirm enum cfg st t cq n cr
        (by rw [hnext.1]; exact hS₂) (by rw [hfinal]; exact hmem)
      refine ⟨⟨hbucket, ?_⟩, ?_⟩
      · rw [hr]
        simp only [hfinal]
        constructor
        · exact fun _ => hS₂
        · intro _
          exact List.mem_append.mpr (Or.inr (by simp))
      · rw [hr]
        simp only [Option.isSome_some, true_iff]
        omega
  · have hr := observe_low enum cfg st t cq n cr (by rw [hnext.1]; exact not_le.mp hS₂)
    refine ⟨⟨hbucket, ?_⟩, ?_⟩
    · rw [hr]
      constructor
      · intro hmem
        exact absurd (hconf.mp hmem) (fun hh => hS₂ (le_trans hh (Nat.le_succ c)))
      · intro hh
        exact absurd hh hS₂
    · rw [hr]
      simp only [Option.isSome_none, Bool.false_eq_true, false_iff]
      omega

theorem run_same {Img : Type} {enum : List String → List String} {cfg : Config}
    {t : String} (he : ValidEnum enum) (hS : 1 ≤ cfg.stability) :
    ∀ (l : List (ℚ × Time × Img)) (st : State) (c : Nat),
      SameInv cfg st t c →
      SameInv cfg (run enum cfg st (obsActs t l)).1 t (c + l.length) ∧
        ∀ k ev, ((run enum cfg st (obsActs t l)).2)[k]? = some ev →
          (ev.isSome ↔ c + k + 1 = cfg.stability) := by
  intro l
  induction l with
  | nil =>
    intro st c h
    refine ⟨by simpa [obsActs, run] using h, ?_⟩
    intro k ev hev
    simp [obsActs, run] at hev
  | cons o rest ih =>
    intro st c h
    have hstep := step_same he hS h o.1 o.2.1 o.2.2
    have hrec := ih (observe enum cfg st t o.1 o.2.1 o.2.2).1 (c + 1) hstep.1
    constructor
    · have harith : c + 1 + rest.length = c + (o :: rest).length := by
        simp
        omega
      simpa [obsActs, run, step, harith] using hrec.1
    · intro k ev hev
      simp only [obsActs, List.map_cons, run, step] at hev
      match k with
      | 0 =>
        simp only [List.getElem?_cons_zero, Option.some_inj] at hev
        rw [← hev]
        simpa using hstep.2
      | Nat.succ k₂ =>
        simp only [List.getElem?_cons_succ] at hev
        have := hrec.2 k₂ ev (by simpa [obsActs] using hev)
        rw [this]
        omega

theorem run_same_info {Img : Type} {enum : List String → List String}
    {cfg : Config} (t : String) :
    ∀ (l : List (ℚ × Time × Img)) (st : State) (v : Info),
      lookup t st.plates_seen = some v →
      lookup t (run enum cfg st (obsActs t l)).1.plates_seen =
        some (foldInfo t v (l.map (fun o => (o.1, o.2.1)))) := by
  intro l
  induction l with
  | nil =>
    intro st v hv
    simpa [obsActs, run, foldInfo] using hv
  | cons o rest ih =>
    intro st v hv
    have hstep : lookup t (observe enum cfg st t o.1 o.2.1 o.2.2).1.plates_seen =
        some (nextInfo t o.1 o.2.1 (some v)) := by
      rw [observe_lookup_self, hv]
    have hrec := ih (observe enum cfg st t o.1 o.2.1 o.2.2).1
      (nextInfo t o.1 o.2.1 (some v)) hstep
    simp only [obsActs, List.map_cons, run, step]
    simpa [obsActs, foldInfo, nextInfo] using hrec

theorem foldInfo_count (t : String) :
    ∀ (l : List (ℚ × Time)) (v : Info), (foldInfo t v l).count = v.count + l.length := by
  intro l
  induction l with
  | nil => intro v; simp [foldInfo]
  | cons o rest ih =>
    intro v
    show (foldInfo t ⟨v.count + 1, o.2, max v.conf o.1, v.texts ++ [t]⟩ rest).count =
      v.count + (o :: rest).length
    rw [ih]
    simp
    omega

theorem foldInfo_conf (t : String) :
    ∀ (l : List (ℚ × Time)) (v : Info),
      (foldInfo t v l).conf = (l.map (fun o => o.1)).foldl max v.conf := by
  intro l
  induction l with
  | nil => intro v; simp [foldInfo]
  | cons o rest ih =>
    intro v
    show (foldInfo t ⟨v.count + 1, o.2, max v.conf o.1, v.texts ++ [t]⟩ rest).conf =
      ((o :: rest).map (fun o => o.1)).foldl max v.conf
    rw [ih]
    simp

end PlateTracker.LS

namespace PlateTracker.LS

theorem observe_event_confirmed {Img : Type} (enum : List String → List String)
    (cfg : Config) (st : State) (t : String) (c : ℚ) (n : Time) (cr : Img)
    {e : Event Img} (h : (observe enum cfg st t c n cr).2 = some e) :
    e.plate ∈ (observe enum cfg st t c n cr).1.confirmed_plates := by
  by_cases h₁ : cfg.stability ≤ (nextInfo t c n (lookup t st.plates_seen)).count
  · by_cases h₂ : finalTextWith enum
        (nextInfo t c n (lookup t st.plates_seen)).texts ∈ st.confirmed_plates
    · rw [observe_already enum cfg st t c n cr h₁ h₂] at h
      simp at h
    · rw [observe_confirm enum cfg st t c n cr h₁ h₂] at h ⊢
      simp only [Option.some_inj] at h
      subst h
      simp
  · rw [observe_low enum cfg st t c n cr (not_le.mp h₁)] at h
    simp at h

theorem observe_event_conf {Img : Type} (enum : List String → List String)
    (cfg : Config) (st : State) (t : String) (c : ℚ) (n : Time) (cr : Img)
    {e : Event Img} (h : (observe enum cfg st t c n cr).2 = some e) :
    e.confidence = (nextInfo t c n (lookup t st.plates_seen)).conf := by
  by_cases h₁ : cfg.stability ≤ (nextInfo t c n (lookup t st.plates_seen)).count
  · by_cases h₂ : finalTextWith enum
        (nextInfo t c n (lookup t st.plates_seen)).texts ∈ st.confirmed_plates
    · rw [observe_already enum cfg st t c n cr h₁ h₂] at h
      simp at h
    · rw [observe_confirm enum cfg st t c n cr h₁ h₂] at h
      simp only [Option.some_inj] at h
      subst h
      rfl
  · rw [observe_low enum cfg st t c n cr (not_le.mp h₁)] at h
    simp at h

end PlateTracker.LS

namespace PlateTracker.LS

/-- Claim C2: for every sequence of observe calls with the same
previously-unconfirmed text and no intervening expiry, the confirmation
result is returned exactly on the call where the candidate's cumulative
count first reaches STABILITY_COUNT (the count after the call at index k is
k + 1); every earlier call returns no confirmation. -/
theorem confirmation_fires_exactly_at_threshold {Img : Type}
    {enum : List String → List String} {cfg : Config} {st : State}
    {t : String} (he : ValidEnum enum) (hS : 1 ≤ cfg.stability)
    (h₀ : lookup t st.plates_seen = none) (h₁ : t ∉ st.confirmed_plates)
    (l : List (ℚ × Time × Img)) (k : Nat) (ev : Option (Event Img))
    (hev : ((run enum cfg st (obsActs t l)).2)[k]? = some ev) :
    ev.isSome ↔ k + 1 = cfg.stability := by
  have hinv : SameInv cfg st t 0 := by
    refine ⟨by rw [if_pos rfl]; exact h₀, ?_⟩
    constructor
    · intro hmem
      exact absurd hmem h₁
    · intro hle
      omega
  have h := (run_same he hS l st 0 hinv).2 k ev hev
  simpa using h

/-- Claim C3: once a canonical text is a member of the confirmed set, an
observe call with that text returns no confirmation event, and the text
remains a confirmed member, so a second event is impossible while it stays
confirmed. -/
theorem no_duplicate_confirmation {Img : Type}
    {enum : List String → List String} {cfg : Config} {st : State}
    {t : String} (he : ValidEnum enum) (hok : TextsOK st)
    (hmem : t ∈ st.confirmed_plates) (c : ℚ) (n : Time) (cr : Img) :
    (observe enum cfg st t c n cr).2 = none ∧
      t ∈ (observe enum cfg st t c n cr).1.confirmed_plates := by
  have hinfo : InfoOK t (nextInfo t c n (lookup t st.plates_seen)) :=
    nextInfo_infoOK (fun w hw => hok (t, w) (lookup_mem hw))
  have hfinal : finalTextWith enum (nextInfo t c n (lookup t st.plates_seen)).texts = t := by
    rw [hinfo.2]
    exact finalTextWith_replicate he (Nat.one_le_iff_ne_zero.mp hinfo.1) t
  by_cases hcnt : cfg.stability ≤ (nextInfo t c n (lookup t st.plates_seen)).count
  · have hr := observe_already enum cfg st t c n cr hcnt (by rw [hfinal]; exact hmem)
    rw [hr]
    exact ⟨rfl, hmem⟩
  · have hr := observe_low enum cfg st t c n cr (not_le.mp hcnt)
    rw [hr]
    exact ⟨rfl, hmem⟩

/-- Claim C4: with EXIT_TIMEOUT = T, a sweep invoked at any time strictly
greater than last_seen + T removes the candidate, and a sweep at any time
at most last_seen + T keeps it, with its record unchanged: the eviction
comparison now - last_seen > T is strict. -/
theorem sweep_eviction_strict_boundary {cfg : Config} {st : State}
    {p : String} {v : Info} (hnd : KeysNodup st.plates_seen)
    (hv : lookup p st.plates_seen = some v) (n : Time) :
    (v.last_seen + cfg.exitTimeout < n →
        lookup p (sweep cfg st n).plates_seen = none) ∧
      (n ≤ v.last_seen + cfg.exitTimeout →
        lookup p (sweep cfg st n).plates_seen = some v) := by
  have h := @sweep_lookup cfg st n p v hnd hv
  constructor
  · intro hgt
    rw [h, if_neg]
    intro hle
    linarith
  · intro hle
    rw [h, if_pos]
    linarith

end PlateTracker.LS

namespace PlateTracker

/-- Claim C6: the canonical text chosen by
`max(set(texts), key=texts.count)` is a most frequent element of the texts
list, whatever order the set is enumerated in; in particular for
texts = ["AB12CD","AB12CD","AB12CE"] the canonical text is "AB12CD" under
every enumeration order. -/
theorem majority_vote_most_frequent {enum : List String → List String}
    (he : ValidEnum enum) :
    (∀ texts : List String, texts ≠ [] →
      finalTextWith enum texts ∈ texts ∧
        ∀ s ∈ texts, texts.count s ≤ texts.count (finalTextWith enum texts)) ∧
      finalTextWith enum ["AB12CD", "AB12CD", "AB12CE"] = "AB12CD" := by
  constructor
  · intro texts hne
    exact finalTextWith_spec he texts hne
  · have hd : (["AB12CD", "AB12CD", "AB12CE"] : List String).dedup =
        ["AB12CD", "AB12CE"] := by decide
    have hperm := he ["AB12CD", "AB12CD", "AB12CE"]
    rw [hd] at hperm
    rcases perm_pair_eq hperm with h | h <;>
      simp only [finalTextWith, h, pyMaxBy] <;> decide

end PlateTracker

namespace PlateTracker.LS

/-- Claim C7: after N observe calls with the same text starting from a
fresh candidate, the stored count equals N; across any single producer or
watcher action an existing candidate's count never decreases; and a sweep
either keeps the whole record unchanged or deletes the whole candidate. -/
theorem count_equals_observations {Img : Type}
    {enum : List String → List String} {cfg : Config} {st : State}
    {t : String} (h₀ : lookup t st.plates_seen = none)
    (o : ℚ × Time × Img) (rest : List (ℚ × Time × Img)) :
    (∃ v : Info,
        lookup t (run enum cfg st (obsActs t (o :: rest))).1.plates_seen = some v ∧
          v.count = (o :: rest).length) ∧
      (∀ (p : String) (a : Act Img) (st₂ : State) (v w : Info),
        KeysNodup st₂.plates_seen →
        lookup p st₂.plates_seen = some v →
        lookup p (step enum cfg st₂ a).1.plates_seen = some w →
        v.count ≤ w.count) ∧
      (∀ (st₂ : State) (n : Time) (p : String) (v : Info),
        KeysNodup st₂.plates_seen →
        lookup p st₂.plates_seen = some v →
        lookup p (sweep cfg st₂ n).plates_seen = some v ∨
          lookup p (sweep cfg st₂ n).plates_seen = none) := by
  refine ⟨?_, ?_, ?_⟩
  · have h₁ : lookup t (observe enum cfg st t o.1 o.2.1 o.2.2).1.plates_seen
        = some (nextInfo t o.1 o.2.1 none) := by
      rw [observe_lookup_self, h₀]
    have h₂ := @run_same_info Img enum cfg t rest
      (observe enum cfg st t o.1 o.2.1 o.2.2).1 (nextInfo t o.1 o.2.1 none) h₁
    refine ⟨foldInfo t (nextInfo t o.1 o.2.1 none)
      (rest.map (fun q => (q.1, q.2.1))), ?_, ?_⟩
    · simp only [obsActs, List.map_cons, run, step]
      simpa [obsActs] using h₂
    · rw [foldInfo_count]
      simp [nextInfo]
      omega
  · intro p a st₂ v w hnd hv hw
    cases a with
    | obs s cq nq crq =>
      by_cases hps : p = s
      · subst hps
        simp only [step] at hw
        rw [observe_lookup_self, hv] at hw
        simp only [Option.some_inj] at hw
        rw [← hw]
        simp [nextInfo]
      · simp only [step] at hw
        rw [observe_lookup_ne enum cfg st₂ s p cq nq crq hps, hv] at hw
        simp only [Option.some_inj] at hw
        rw [← hw]
    | sweep nq =>
      simp only [step] at hw
      rw [@sweep_lookup cfg st₂ nq p v hnd hv] at hw
      by_cases hc : nq - v.last_seen ≤ cfg.exitTimeout
      · rw [if_pos hc] at hw
        simp only [Option.some_inj] at hw
        rw [← hw]
      · rw [if_neg hc] at hw
        simp at hw
  · intro st₂ n p v hnd hv
    rw [@sweep_lookup cfg st₂ n p v hnd hv]
    by_cases hc : n - v.last_seen ≤ cfg.exitTimeout
    · exact Or.inl (by rw [if_pos hc])
    · exact Or.inr (by rw [if_neg hc])

/-- Claim C8: the stored confidence after a same-text observation sequence
from creation equals the running maximum of all observed detector
confidences; a single update replaces it by max(stored, new), so it never
decreases; and a confirmation event carries the stored running maximum. -/
theorem confidence_running_max {Img : Type}
    {enum : List String → List String} {cfg : Config} {st : State}
    {t : String} (h₀ : lookup t st.plates_seen = none)
    (o : ℚ × Time × Img) (rest : List (ℚ × Time × Img)) :
    (∃ v : Info,
        lookup t (run enum cfg st (obsActs t (o :: rest))).1.plates_seen = some v ∧
          v.conf = (rest.map (fun q => q.1)).foldl max o.1) ∧
      (∀ (st₂ : State) (v : Info) (c : ℚ) (n : Time) (cr : Img),
        lookup t st₂.plates_seen = some v →
        ∃ w : Info,
          lookup t (observe enum cfg st₂ t c n cr).1.plates_seen = some w ∧
            w.conf = max v.conf c ∧ v.conf ≤ w.conf) ∧
      (∀ (st₂ : State) (c : ℚ) (n : Time) (cr : Img) (e : Event Img),
        (observe enum cfg st₂ t c n cr).2 = some e →
        ∃ w : Info,
          lookup t (observe enum cfg st₂ t c n cr).1.plates_seen = some w ∧
            e.confidence = w.conf) := by
  refine ⟨?_, ?_, ?_⟩
  · have h₁ : lookup t (observe enum cfg st t o.1 o.2.1 o.2.2).1.plates_seen
        = some (nextInfo t o.1 o.2.1 none) := by
      rw [observe_lookup_self, h₀]
    have h₂ := @run_same_info Img enum cfg t rest
      (observe enum cfg st t o.1 o.2.1 o.2.2).1 (nextInfo t o.1 o.2.1 none) h₁
    refine ⟨foldInfo t (nextInfo t o.1 o.2.1 none)
      (rest.map (fun q => (q.1, q.2.1))), ?_, ?_⟩
    · simp only [obsActs, List.map_cons, run, step]
      simpa [obsActs] using h₂
    · rw [foldInfo_conf]
      simp only [nextInfo, List.map_map]
      rfl
  · intro st₂ v c n cr hv
    refine ⟨nextInfo t c n (some v), ?_, rfl, le_max_left _ _⟩
    rw [observe_lookup_self, hv]
  · intro st₂ c n cr e hev
    exact ⟨nextInfo t c n (lookup t st₂.plates_seen),
      observe_lookup_self enum cfg st₂ t c n cr,
      observe_event_conf enum cfg st₂ t c n cr hev⟩

theorem observe_enum_irrelevant {Img : Type} {e₁ e₂ : List String → List String}
    {cfg : Config} {st : State} (h₁ : ValidEnum e₁) (h₂ : ValidEnum e₂)
    (hok : TextsOK st) (t : String) (c : ℚ) (n : Time) (cr : Img) :
    observe e₁ cfg st t c n cr = observe e₂ cfg st t c n cr := by
  have hinfo : InfoOK t (nextInfo t c n (lookup t st.plates_seen)) :=
    nextInfo_infoOK (fun w hw => hok (t, w) (lookup_mem hw))
  have hf₁ : finalTextWith e₁ (nextInfo t c n (lookup t st.plates_seen)).texts = t := by
    rw [hinfo.2]
    exact finalTextWith_replicate h₁ (Nat.one_le_iff_ne_zero.mp hinfo.1) t
  have hf₂ : finalTextWith e₂ (nextInfo t c n (lookup t st.plates_seen)).texts = t := by
    rw [hinfo.2]
    exact finalTextWith_replicate h₂ (Nat.one_le_iff_ne_zero.mp hinfo.1) t
  unfold observe
  dsimp only
  rw [hf₁, hf₂]

theorem run_enum_irrelevant_aux {Img : Type} {e₁ e₂ : List String → List String}
    {cfg : Config} (h₁ : ValidEnum e₁) (h₂ : ValidEnum e₂) :
    ∀ (acts : List (Act Img)) (st : State), TextsOK st →
      TextsOK (run e₁ cfg st acts).1 ∧ run e₁ cfg st acts = run e₂ cfg st acts := by
  intro acts
  induction acts with
  | nil =>
    intro st hok
    exact ⟨by simpa [run] using hok, rfl⟩
  | cons a rest ih =>
    intro st hok
    cases a with
    | obs t c n cr =>
      have hstep := @observe_enum_irrelevant Img e₁ e₂ cfg st h₁ h₂ hok t c n cr
      have hok₂ := @textsOK_observe Img e₁ cfg st t c n cr hok
      have hrec := ih (observe e₁ cfg st t c n cr).1 hok₂
      constructor
      · simpa [run, step] using hrec.1
      · simp only [run, step]
        rw [hstep]
        rw [show run e₁ cfg (observe e₂ cfg st t c n cr).1 rest =
            run e₂ cfg (observe e₂ cfg st t c n cr).1 rest from by
          rw [← hstep]; exact hrec.2]
    | sweep n =>
      have hok₂ := @textsOK_sweep cfg st n hok
      have hrec := ih (sweep cfg st n) hok₂
      constructor
      · simpa [run, step] using hrec.1
      · simp only [run, step]
        rw [hrec.2]

/-- Claim C5: in every reachable state each candidate's texts list contains
only repetitions of its own key, so the majority vote is applied to a
singleton set and returns the bucket key; consequently two runs of the
tracker over the same observation sequence produce identical states and
confirmation events whatever iteration order the underlying Python set
exhibits. -/
theorem texts_uniform_and_run_deterministic {Img : Type}
    {e₁ e₂ : List String → List String} {cfg : Config}
    (h₁ : ValidEnum e₁) (h₂ : ValidEnum e₂) (acts : List (Act Img)) :
    TextsOK (run e₁ cfg init acts).1 ∧
      (∀ (p : String) (v : Info),
        lookup p (run e₁ cfg init acts).1.plates_seen = some v →
        finalTextWith e₁ v.texts = p) ∧
      run e₁ cfg init acts = run e₂ cfg init acts := by
  have h := @run_enum_irrelevant_aux Img e₁ e₂ cfg h₁ h₂ acts init
    (by intro pv hpv; simp [init] at hpv)
  refine ⟨h.1, ?_, h.2⟩
  intro p v hv
  have hinfo : InfoOK p v := h.1 (p, v) (lookup_mem hv)
  rw [hinfo.2]
  exact finalTextWith_replicate h₁ (Nat.one_le_iff_ne_zero.mp hinfo.1) p

end PlateTracker.LS

namespace PlateTracker.UP

theorem sweep_removes_confirmed {Img : Type} (cfg : Config) (st : State Img)
    (n : Time) (p : String) (v : Info Img)
    (hv : lookup p st.plates_seen = some v)
    (hexp : cfg.exitTimeout < n - v.last_seen) :
    p ∉ (sweep cfg st n).confirmed_plates ∧
      lookup p (sweep cfg st n).plates_seen = none := by
  have hpexp : p ∈ (st.plates_seen.filter
      (fun pv => decide (cfg.exitTimeout < n - pv.2.last_seen))).map Prod.fst := by
    refine List.mem_map.mpr ⟨(p, v), ?_, rfl⟩
    exact List.mem_filter.mpr ⟨lookup_mem hv, by simpa using hexp⟩
  constructor
  · intro hmem
    simp only [sweep] at hmem
    have h := List.mem_filter.mp hmem
    rw [decide_eq_true_iff] at h
    exact h.2 hpexp
  · rw [lookup_eq_none_iff]
    intro hmem
    simp only [sweep] at hmem
    obtain ⟨pv, hpv, hfst⟩ := List.mem_map.mp hmem
    have h := List.mem_filter.mp hpv
    rw [decide_eq_true_iff] at h
    exact h.2 (hfst ▸ hpexp)

end PlateTracker.UP

namespace PlateTracker

/-- Claim C1 counterexample: on the livestream variant
(`plate_capture_easyocr_livestream.py`, `exit_watcher` lines 230-237) the
claim fails. After "XYZ999" is observed 5 times and confirmed (one entry
event at the fifth call), a sweep at time 20 evicts the expired candidate
yet leaves "XYZ999" in the confirmed set, and re-observing it
STABILITY_COUNT = 5 times produces no second confirmation event. -/
theorem livestream_sweep_retains_confirmed :
    ((LS.run LS.enumDedup (Config.mk 5 15 true) LS.init
        (LS.obsActs "XYZ999"
          [(1, 0, ()), (1, 1, ()), (1, 2, ()), (1, 3, ()), (1, 4, ())])).2 =
      [none, none, none, none, some (Event.mk "entry" "XYZ999" 1 ())]) ∧
    ("XYZ999" ∈ (LS.sweep (Config.mk 5 15 true)
        (LS.run LS.enumDedup (Config.mk 5 15 true) LS.init
          (LS.obsActs "XYZ999"
            [(1, 0, ()), (1, 1, ()), (1, 2, ()), (1, 3, ()), (1, 4, ())])).1
        20).confirmed_plates) ∧
    (lookup "XYZ999" (LS.sweep (Config.mk 5 15 true)
        (LS.run LS.enumDedup (Config.mk 5 15 true) LS.init
          (LS.obsActs "XYZ999"
            [(1, 0, ()), (1, 1, ()), (1, 2, ()), (1, 3, ()), (1, 4, ())])).1
        20).plates_seen = none) ∧
    ((LS.run LS.enumDedup (Config.mk 5 15 true)
        (LS.sweep (Config.mk 5 15 true)
          (LS.run LS.enumDedup (Config.mk 5 15 true) LS.init
            (LS.obsActs "XYZ999"
              [(1, 0, ()), (1, 1, ()), (1, 2, ()), (1, 3, ()), (1, 4, ())])).1
          20)
        (LS.obsActs "XYZ999"
          [(1, 21, ()), (1, 22, ()), (1, 23, ()), (1, 24, ()), (1, 25, ())])).2 =
      [none, none, none, none, none]) := by
  have h₁ : LS.run LS.enumDedup (Config.mk 5 15 true) LS.init
      (LS.obsActs "XYZ999"
        [(1, 0, ()), (1, 1, ()), (1, 2, ()), (1, 3, ()), (1, 4, ())]) =
      (LS.State.mk [("XYZ999", LS.Info.mk 5 4 1
          ["XYZ999", "XYZ999", "XYZ999", "XYZ999", "XYZ999"])]
        ["XYZ999"] ["XYZ999"],
       [none, none, none, none, some (Event.mk "entry" "XYZ999" 1 ())]) := by
    decide
  have h₁f : (LS.run LS.enumDedup (Config.mk 5 15 true) LS.init
      (LS.obsActs "XYZ999"
        [(1, 0, ()), (1, 1, ()), (1, 2, ()), (1, 3, ()), (1, 4, ())])).1 =
      LS.State.mk [("XYZ999", LS.Info.mk 5 4 1
          ["XYZ999", "XYZ999", "XYZ999", "XYZ999", "XYZ999"])]
        ["XYZ999"] ["XYZ999"] := congrArg Prod.fst h₁
  have hd : decide ((20 : ℚ) - 4 ≤ 15) = false := by
    rw [decide_eq_false_iff_not]
    norm_num
  have hsw : LS.sweep (Config.mk 5 15 true)
      (LS.State.mk [("XYZ999", LS.Info.mk 5 4 1
          ["XYZ999", "XYZ999", "XYZ999", "XYZ999", "XYZ999"])]
        ["XYZ999"] ["XYZ999"]) 20 =
      LS.State.mk [] ["XYZ999"] ["XYZ999"] := by
    simp [LS.sweep, List.filter_cons, hd]
    norm_num
  refine ⟨by rw [h₁], ?_, ?_, ?_⟩
  · rw [h₁f, hsw]
    decide
  · rw [h₁f, hsw]
    decide
  · rw [h₁f, hsw]
    decide

/-- Claim C1 amended: in the upload variant (`LPProcessor._exit_watcher`,
`plate_capture_easyocr_upload.py` lines 180-190) every candidate evicted by
a sweep whose text is in the confirmed set is also removed from the
confirmed set, and the re-entry scenario (text confirmed, expired via
sweep, re-observed STABILITY_COUNT times from a fresh count of 1) produces
a second confirmation event; in the livestream variant the sweep leaves the
confirmed set untouched and no second confirmation occurs. -/
theorem upload_sweep_unconfirms_and_reentry :
    (∀ (Img : Type) (cfg : Config) (st : UP.State Img) (n : Time)
        (p : String) (v : UP.Info Img),
      lookup p st.plates_seen = some v →
      cfg.exitTimeout < n - v.last_seen →
      p ∉ (UP.sweep cfg st n).confirmed_plates ∧
        lookup p (UP.sweep cfg st n).plates_seen = none) ∧
    ((UP.run LS.enumDedup (Config.mk 5 15 true) UP.init
        (LS.obsActs "XYZ999"
          [(1, 0, ()), (1, 1, ()), (1, 2, ()), (1, 3, ()), (1, 4, ())])).2 =
      [none, none, none, none, some (Event.mk "entry" "XYZ999" 1 ())]) ∧
    ((UP.run LS.enumDedup (Config.mk 5 15 true)
        (UP.sweep (Config.mk 5 15 true)
          (UP.run LS.enumDedup (Config.mk 5 15 true) UP.init
            (LS.obsActs "XYZ999"
              [(1, 0, ()), (1, 1, ()), (1, 2, ()), (1, 3, ()), (1, 4, ())])).1
          20)
        (LS.obsActs "XYZ999"
          [(1, 21, ()), (1, 22, ()), (1, 23, ()), (1, 24, ()), (1, 25, ())])).2 =
      [none, none, none, none, some (Event.mk "entry" "XYZ999" 1 ())]) := by
  have h₁ : UP.run LS.enumDedup (Config.mk 5 15 true) UP.init
      (LS.obsActs "XYZ999"
        [(1, 0, ()), (1, 1, ()), (1, 2, ()), (1, 3, ()), (1, 4, ())]) =
      (UP.State.mk [("XYZ999", UP.Info.mk 5 4 1
          ["XYZ999", "XYZ999", "XYZ999", "XYZ999", "XYZ999"] ())]
        ["XYZ999"] [],
       [none, none, none, none, some (Event.mk "entry" "XYZ999" 1 ())]) := by
    decide
  have h₁f : (UP.run LS.enumDedup (Config.mk 5 15 true) UP.init
      (LS.obsActs "XYZ999"
        [(1, 0, ()), (1, 1, ()), (1, 2, ()), (1, 3, ()), (1, 4, ())])).1 =
      UP.State.mk [("XYZ999", UP.Info.mk 5 4 1
          ["XYZ999", "XYZ999", "XYZ999", "XYZ999", "XYZ999"] ())]
        ["XYZ999"] [] := congrArg Prod.fst h₁
  have hd : ((15 : ℚ) < 20 - 4) := by norm_num
  have hsw : UP.sweep (Config.mk 5 15 true)
      (UP.State.mk [("XYZ999", UP.Info.mk 5 4 1
          ["XYZ999", "XYZ999", "XYZ999", "XYZ999", "XYZ999"] ())]
        ["XYZ999"] []) 20 =
      UP.State.mk [] [] [] := by
    simp [UP.sweep, List.filter_cons, hd]
  refine ⟨?_, by rw [h₁], ?_⟩
  · intro Img cfg st n p v hv hexp
    exact UP.sweep_removes_confirmed cfg st n p v hv hexp
  · rw [h₁f, hsw]
    decide

end PlateTracker

namespace PlateTracker

theorem publish_event_ok {Img : Type} (em : Event Img → Except String Unit)
    (e : Event Img) : LS.publish_event em e = Except.ok () := by
  unfold LS.publish_event
  cases em e <;> rfl

theorem at_observe_event_confirmed {Img : Type}
    (enum : List String → List String) (cfg : Config) (st : AT.State)
    (t : String) (c : ℚ) (n : Time) (cr : Img) {e : Event Img}
    (h : (AT.observe enum cfg st t c n cr).2 = some e) :
    e.plate ∈ (AT.observe enum cfg st t c n cr).1.confirmed_plates := by
  unfold AT.observe at h ⊢
  dsimp only at h ⊢
  split at h
  next hcond =>
    simp only [Option.some_inj] at h
    subst h
    rw [if_pos hcond]
    simp
  next hcond =>
    simp at h

theorem ls_observeEmit_spec {Img : Type} (em : Event Img → Except String Unit)
    (enum : List String → List String) (cfg : Config) (st : LS.State)
    (t : String) (c : ℚ) (n : Time) (cr : Img) :
    ((LS.observeEmit em enum cfg st t c n cr).1 =
        (LS.observe enum cfg st t c n cr).1) ∧
      ((LS.observeEmit em enum cfg st t c n cr).2.2 = Except.ok ()) ∧
      ((LS.observeEmit em enum cfg st t c n cr).2.1.length ≤ 1) ∧
      (∀ e ∈ (LS.observeEmit em enum cfg st t c n cr).2.1,
        e.plate ∈ (LS.observeEmit em enum cfg st t c n cr).1.confirmed_plates) := by
  cases hobs : (LS.observe enum cfg st t c n cr).2 with
  | none => simp [LS.observeEmit, hobs]
  | some e =>
    refine ⟨by simp [LS.observeEmit, hobs], by simp [LS.observeEmit, hobs, publish_event_ok],
      by simp [LS.observeEmit, hobs], ?_⟩
    intro x hx
    simp only [LS.observeEmit, hobs, List.mem_singleton] at hx ⊢
    subst hx
    exact LS.observe_event_confirmed enum cfg st t c n cr hobs

theorem at_observeEmit_spec {Img : Type} (em : Event Img → Except String Unit)
    (enum : List String → List String) (cfg : Config) (st : AT.State)
    (t : String) (c : ℚ) (n : Time) (cr : Img) :
    ((AT.observeEmit em enum cfg st t c n cr).1 =
        (AT.observe enum cfg st t c n cr).1) ∧
      ((AT.observeEmit em enum cfg st t c n cr).2.1.length ≤ 1) ∧
      (∀ e ∈ (AT.observeEmit em enum cfg st t c n cr).2.1,
        e.plate ∈ (AT.observeEmit em enum cfg st t c n cr).1.confirmed_plates) := by
  cases hobs : (AT.observe enum cfg st t c n cr).2 with
  | none => simp [AT.observeEmit, hobs]
  | some e =>
    refine ⟨by simp [AT.observeEmit, hobs], by simp [AT.observeEmit, hobs], ?_⟩
    intro x hx
    simp only [AT.observeEmit, hobs, List.mem_singleton] at hx ⊢
    subst hx
    exact at_observe_event_confirmed enum cfg st t c n cr hobs

/-- Claim C9 counterexample: in `app_trial_livestream.py`, `publish_event`
(lines 56–70) calls the transport with no try/except, so on a confirmation
transition a failing emitter propagates its error out of the observe step —
even though the confirmed-set update has already been recorded. -/
theorem apptrial_emitter_failure_escapes :
    ((AT.observeEmit (fun _ => Except.error "mqtt down") LS.enumDedup
        (Config.mk 3 15 true)
        (AT.State.mk [("B1234XY", LS.Info.mk 2 1 1 ["B1234XY", "B1234XY"])] [])
        "B1234XY" 1 2 ()).2.2 = Except.error "mqtt down") ∧
      ("B1234XY" ∈ (AT.observeEmit (fun _ => Except.error "mqtt down") LS.enumDedup
        (Config.mk 3 15 true)
        (AT.State.mk [("B1234XY", LS.Info.mk 2 1 1 ["B1234XY", "B1234XY"])] [])
        "B1234XY" 1 2 ()).1.confirmed_plates) := by
  exact ⟨rfl, by decide⟩

/-- Claim C9 amended: in every variant the tracker update and the
confirmed-set insertion are recorded before the emitter runs — the event
handed over already names a member of the resulting confirmed set — the
emitter is invoked at most once per observe step, and its outcome never
changes the tracker state; in the plate_capture variant an emitter failure
is caught inside publish_event and does not escape the observe step, while
in app_trial_livestream it propagates out (see the counterexample). -/
theorem emitter_discipline {Img : Type} (em : Event Img → Except String Unit)
    (enum : List String → List String) (cfg : Config) (st : LS.State)
    (st₂ : AT.State) (t : String) (c : ℚ) (n : Time) (cr : Img) :
    ((LS.observeEmit em enum cfg st t c n cr).1 =
        (LS.observe enum cfg st t c n cr).1) ∧
      ((LS.observeEmit em enum cfg st t c n cr).2.2 = Except.ok ()) ∧
      ((LS.observeEmit em enum cfg st t c n cr).2.1.length ≤ 1) ∧
      (∀ e ∈ (LS.observeEmit em enum cfg st t c n cr).2.1,
        e.plate ∈ (LS.observeEmit em enum cfg st t c n cr).1.confirmed_plates) ∧
      ((AT.observeEmit em enum cfg st₂ t c n cr).1 =
        (AT.observe enum cfg st₂ t c n cr).1) ∧
      ((AT.observeEmit em enum cfg st₂ t c n cr).2.1.length ≤ 1) ∧
      (∀ e ∈ (AT.observeEmit em enum cfg st₂ t c n cr).2.1,
        e.plate ∈ (AT.observeEmit em enum cfg st₂ t c n cr).1.confirmed_plates) := by
  obtain ⟨h₁, h₂, h₃, h₄⟩ := ls_observeEmit_spec em enum cfg st t c n cr
  obtain ⟨g₁, g₂, g₃⟩ := at_observeEmit_spec em enum cfg st₂ t c n cr
  exact ⟨h₁, h₂, h₃, h₄, g₁, g₂, g₃⟩

/-- Claim C10 counterexample: the `with lock:` block of `detection_loop`
(`plate_capture_easyocr_livestream.py` lines 288–311) performs the debug
save and the MQTT publish before releasing the lock on a confirmation
transition, so the lock is held across external calls. -/
theorem lock_held_across_publish :
    externalWhileLocked (LS.observeOps LS.enumDedup (Config.mk 5 15 true)
      (LS.State.mk [("B1234XY", LS.Info.mk 4 0 1
        ["B1234XY", "B1234XY", "B1234XY", "B1234XY"])] [] [])
      "B1234XY" 1 1) = true := by decide

/-- Claim C10 amended: during a sweep pass and during a non-confirming
observation the lock is held only for the in-memory update, with no call
that leaves the process under it; on a confirmation transition the
debug-image save and the publish_event call do run while the lock is held. -/
theorem lock_discipline_by_transition (enum : List String → List String)
    (cfg : Config) (st : LS.State) (t : String) (c : ℚ) (n : Time) :
    ((LS.observe enum cfg st t c n ()).2 = none →
      externalWhileLocked (LS.observeOps enum cfg st t c n) = false) ∧
      (∀ e : Event Unit, (LS.observe enum cfg st t c n ()).2 = some e →
        externalWhileLocked (LS.observeOps enum cfg st t c n) = true) ∧
      externalWhileLocked LS.sweepOps = false := by
  refine ⟨?_, ?_, rfl⟩
  · intro h
    simp [LS.observeOps, h, externalWhileLocked, extLockedAux]
  · intro e h
    by_cases hdbg : cfg.debugSave ∧ e.plate ∉ st.recorded_plates <;>
      simp [LS.observeOps, h, hdbg, externalWhileLocked, extLockedAux]

end PlateTracker

namespace PlateTracker

theorem upload_sweep_unconfirms_witness :
    "AB12CD" ∉ (UP.sweep (Config.mk 5 15 true)
        (UP.State.mk [("AB12CD", UP.Info.mk 5 2 1
            ["AB12CD", "AB12CD", "AB12CD", "AB12CD", "AB12CD"] ())]
          ["AB12CD"] []) 20).confirmed_plates ∧
      lookup "AB12CD" (UP.sweep (Config.mk 5 15 true)
        (UP.State.mk [("AB12CD", UP.Info.mk 5 2 1
            ["AB12CD", "AB12CD", "AB12CD", "AB12CD", "AB12CD"] ())]
          ["AB12CD"] []) 20).plates_seen = none :=
  upload_sweep_unconfirms_and_reentry.1 Unit (Config.mk 5 15 true)
    (UP.State.mk [("AB12CD", UP.Info.mk 5 2 1
        ["AB12CD", "AB12CD", "AB12CD", "AB12CD", "AB12CD"] ())]
      ["AB12CD"] []) 20 "AB12CD"
    (UP.Info.mk 5 2 1 ["AB12CD", "AB12CD", "AB12CD", "AB12CD", "AB12CD"] ())
    (by decide) (by norm_num)

theorem confirmation_fires_exactly_at_threshold_witness :
    (some (Event.mk "entry" "B1234XY" 1 ())).isSome ↔ 4 + 1 = 5 :=
  @LS.confirmation_fires_exactly_at_threshold Unit LS.enumDedup
    (Config.mk 5 15 true) LS.init "B1234XY" enumDedup_valid (by decide)
    (by decide) (by decide)
    [(1, 0, ()), (1, 1, ()), (1, 2, ()), (1, 3, ()), (1, 4, ())] 4
    (some (Event.mk "entry" "B1234XY" 1 ())) (by decide)

theorem no_duplicate_confirmation_witness :
    (LS.observe LS.enumDedup (Config.mk 5 15 true)
        (LS.State.mk [("B1234XY", LS.Info.mk 5 4 1
            ["B1234XY", "B1234XY", "B1234XY", "B1234XY", "B1234XY"])]
          ["B1234XY"] ["B1234XY"]) "B1234XY" 1 6 ()).2 = none ∧
      "B1234XY" ∈ (LS.observe LS.enumDedup (Config.mk 5 15 true)
        (LS.State.mk [("B1234XY", LS.Info.mk 5 4 1
            ["B1234XY", "B1234XY", "B1234XY", "B1234XY", "B1234XY"])]
          ["B1234XY"] ["B1234XY"]) "B1234XY" 1 6 ()).1.confirmed_plates :=
  @LS.no_duplicate_confirmation Unit LS.enumDedup (Config.mk 5 15 true)
    (LS.State.mk [("B1234XY", LS.Info.mk 5 4 1
        ["B1234XY", "B1234XY", "B1234XY", "B1234XY", "B1234XY"])]
      ["B1234XY"] ["B1234XY"]) "B1234XY" enumDedup_valid (by decide)
    (by decide) 1 6 ()

theorem sweep_eviction_strict_boundary_witness :
    lookup "B1234XY" (LS.sweep (Config.mk 5 15 true)
      (LS.State.mk [("B1234XY", LS.Info.mk 3 4 1
          ["B1234XY", "B1234XY", "B1234XY"])] [] []) 20).plates_seen = none :=
  (@LS.sweep_eviction_strict_boundary (Config.mk 5 15 true)
    (LS.State.mk [("B1234XY", LS.Info.mk 3 4 1
        ["B1234XY", "B1234XY", "B1234XY"])] [] []) "B1234XY"
    (LS.Info.mk 3 4 1 ["B1234XY", "B1234XY", "B1234XY"])
    (by decide) (by decide) 20).1 (by norm_num)

theorem run_deterministic_witness :
    LS.run LS.enumDedup (Config.mk 5 15 true) LS.init
        (LS.obsActs "B1234XY" [(1, 0, ()), (1, 1, ())]) =
      LS.run LS.enumRev (Config.mk 5 15 true) LS.init
        (LS.obsActs "B1234XY" [(1, 0, ()), (1, 1, ())]) :=
  (@LS.texts_uniform_and_run_deterministic Unit LS.enumDedup LS.enumRev
    (Config.mk 5 15 true) enumDedup_valid enumRev_valid
    (LS.obsActs "B1234XY" [(1, 0, ()), (1, 1, ())])).2.2

theorem majority_vote_most_frequent_witness :
    finalTextWith LS.enumRev ["AB12CD", "AB12CD", "AB12CE"] = "AB12CD" :=
  (majority_vote_most_frequent enumRev_valid).2

theorem count_equals_observations_witness :
    ∃ v : LS.Info,
      lookup "B1234XY" (LS.run LS.enumDedup (Config.mk 5 15 true) LS.init
          (LS.obsActs "B1234XY"
            [(1, 0, ()), (1, 1, ()), (1, 2, ())])).1.plates_seen = some v ∧
        v.count = ([((1:ℚ), (0:ℚ), ()), (1, 1, ()), (1, 2, ())]).length :=
  (@LS.count_equals_observations Unit LS.enumDedup (Config.mk 5 15 true)
    LS.init "B1234XY" (by decide) (1, 0, ()) [(1, 1, ()), (1, 2, ())]).1

theorem confidence_running_max_witness :
    ∃ v : LS.Info,
      lookup "B1234XY" (LS.run LS.enumDedup (Config.mk 5 15 true) LS.init
          (LS.obsActs "B1234XY"
            [(2, 0, ()), (3, 1, ()), (1, 2, ())])).1.plates_seen = some v ∧
        v.conf = ([((3:ℚ), (1:ℚ), ()), (1, 2, ())].map (fun q => q.1)).foldl max 2 :=
  (@LS.confidence_running_max Unit LS.enumDedup (Config.mk 5 15 true)
    LS.init "B1234XY" (by decide) (2, 0, ()) [(3, 1, ()), (1, 2, ())]).1

theorem emitter_discipline_witness :
    (LS.observeEmit (fun _ => Except.error "down") LS.enumDedup
        (Config.mk 5 15 true) LS.init "B1234XY" 1 0 ()).2.2 = Except.ok () :=
  (emitter_discipline (fun _ => Except.error "down") LS.enumDedup
    (Config.mk 5 15 true) LS.init (AT.State.mk [] []) "B1234XY" 1 0 ()).2.1

theorem lock_discipline_by_transition_witness :
    externalWhileLocked (LS.observeOps LS.enumDedup (Config.mk 5 15 true)
      LS.init "B1234XY" 1 0) = false :=
  (lock_discipline_by_transition LS.enumDedup (Config.mk 5 15 true) LS.init
    "B1234XY" 1 0).1 (by decide)

end PlateTracker
